import Mathlib

/-!
Verification development for the STBG project-prioritization backend
(`src/server.js`).  The JavaScript source is shallowly embedded: JSON
values appearing inside geometry coordinates become an inductive type,
JS numbers become rationals, feature collections become lists, the
`Math.random` stream becomes an explicit oracle argument, and the turf
geometric primitives (centroid, booleanWithin) become oracle parameters.
-/

/-- A JSON value as it can appear inside a GeoJSON `coordinates` member.
JS numbers are modelled as rationals, with `nan` for `NaN` and `inf` for
the infinities (both of which satisfy `typeof c === "number"` in JS,
while only `nan` satisfies `isNaN`). -/
inductive JVal where
  | num (q : ℚ)
  | nan
  | inf
  | str (s : String)
  | null
  | arr (xs : List JVal)

/-- `typeof c === "number"` (true for finite numbers, NaN and infinities). -/
def isJSNumber : JVal → Bool
  | JVal.num _ => true
  | JVal.nan => true
  | JVal.inf => true
  | _ => false

/-- `typeof c === "number" && !isNaN(c)` — the per-entry check of
`getCentroidsWithin` (`server.js` line 177). -/
def isNumberNotNaN : JVal → Bool
  | JVal.num _ => true
  | JVal.inf => true
  | _ => false

mutual

/-- The spec reading of "every coordinate value in its geometry is a
finite number", applied to an arbitrarily nested coordinate structure. -/
def allFiniteNumbers : JVal → Bool
  | JVal.num _ => true
  | JVal.arr xs => allFiniteList xs
  | _ => false

/-- `allFiniteNumbers` on every element of a list. -/
def allFiniteList : List JVal → Bool
  | [] => true
  | x :: xs => allFiniteNumbers x && allFiniteList xs

end

/-- A GeoJSON geometry: its `type` tag and the JSON array stored under
`coordinates` (the list holds the top-level entries of that array). -/
structure Geom where
  gtype : String
  coordinates : List JVal

/-- A GeoJSON feature; `geometry` is `none` when the member is absent or
null.  Properties are irrelevant to the validators and are omitted. -/
structure Feature where
  geometry : Option Geom

/-- The coordinate validation of `getCentroidsWithin` (`server.js`
lines 173-178): the `coordinates` array must consist of arrays whose
elements are all numbers other than NaN.  Note this only matches a
LineString-shaped nesting. -/
def hasValidCoords (coords : List JVal) : Bool :=
  coords.all fun coord =>
    match coord with
    | JVal.arr cs => cs.all isNumberNotNaN
    | _ => false

/-- The filter body of `getCentroidsWithin` (`server.js` lines 160-198).
`cen` models `turf.centroid` (`none` when it throws or returns a result
without geometry/coordinates) and `win` models `turf.booleanWithin`
against the buffer (false also when the predicate throws). -/
def gcwKeeps {α β : Type} (buffer : β) (cen : Feature → Option α)
    (win : α → β → Bool) (feat : Feature) : Bool :=
  match feat.geometry with
  | none => false
  | some g =>
    if g.coordinates.length = 0 then false
    else if hasValidCoords g.coordinates then
      match cen feat with
      | none => false
      | some c => win c buffer
    else false

/-- `getCentroidsWithin(buffer, features)` (`server.js` lines 159-199). -/
def getCentroidsWithin {α β : Type} (buffer : β) (cen : Feature → Option α)
    (win : α → β → Bool) (features : List Feature) : List Feature :=
  features.filter (gcwKeeps buffer cen win)

/-- The per-feature validation of `cleanGeoJSON` (`server.js` lines
698-702): geometry and coordinates present, and every top-level entry is
an array all of whose elements satisfy `typeof c === "number"` (NaN
included — `cleanGeoJSON` has no `isNaN` test). -/
def cleanValid (feat : Feature) : Bool :=
  match feat.geometry with
  | none => false
  | some g =>
    g.coordinates.all fun coord =>
      match coord with
      | JVal.arr cs => cs.all isJSNumber
      | _ => false

/-- `cleanGeoJSON(fc)` (`server.js` lines 695-714): keep exactly the
features passing `cleanValid`, in order. -/
def cleanGeoJSON (features : List Feature) : List Feature :=
  features.filter cleanValid

/-- A Point feature with finite coordinates, e.g. `[0, 0]`. -/
def pointFeature : Feature :=
  { geometry := some { gtype := "Point", coordinates := [JVal.num 0, JVal.num 0] } }

/-- A Polygon feature with a single square ring of finite coordinates. -/
def polygonFeature : Feature :=
  { geometry := some { gtype := "Polygon", coordinates :=
      [JVal.arr [JVal.arr [JVal.num 0, JVal.num 0],
                 JVal.arr [JVal.num 1, JVal.num 0],
                 JVal.arr [JVal.num 1, JVal.num 1],
                 JVal.arr [JVal.num 0, JVal.num 0]]] } }

/-- Whether every coordinate value of a feature's geometry is a finite
number (the spec's validity condition, any nesting depth). -/
def featureAllFinite (feat : Feature) : Bool :=
  match feat.geometry with
  | none => false
  | some g => g.coordinates.all (fun v => allFiniteNumbers v)

/-- The ε guard `0.0001` used by every normalization step. -/
def epsGuard : ℚ := 1 / 10000

/-- `Math.max(0.0001, ...rawValues)` (e.g. `server.js` line 299). -/
def maxRawOf (raws : List ℚ) : ℚ := raws.foldl max epsGuard

/-- `maxRaw > 0 ? (raw / maxRaw) * cap : 0` (e.g. lines 302-305). -/
def normalizeScore (cap m raw : ℚ) : ℚ := if 0 < m then raw / m * cap else 0

/-- The normalized score vector of one criterion. -/
def normalizeAll (cap : ℚ) (raws : List ℚ) : List ℚ :=
  raws.map (normalizeScore cap (maxRawOf raws))

/-- ASCII lowercasing of one character — how `toLowerCase` acts on the
ASCII project-type tags compared by the source. -/
def lowerChar (c : Char) : Char :=
  if 65 ≤ c.toNat ∧ c.toNat ≤ 90 then Char.ofNat (c.toNat + 32) else c

/-- ASCII `toLowerCase` on a string. -/
def lowerStr (s : String) : String := String.mk (s.data.map lowerChar)

/-- The VMT (exposure) computation of `analyzeSafetyRate`
(`server.js` lines 348-357): the project type is lowercased and compared
against "highway" and "intersection"; any other type leaves `vmt = 1`. -/
def vmtOf (ptype : String) (aadt len : ℚ) : ℚ :=
  if lowerStr ptype = "highway" then aadt * len * 365 / 100000000
  else if lowerStr ptype = "intersection" then aadt * 365 / 1000000
  else 1

/-- `const epdoRate = vmt > 0 ? benefit / vmt : 0` (line 359). -/
def epdoRateOf (benefit vmt : ℚ) : ℚ := if 0 < vmt then benefit / vmt else 0

/-- One row of `finalData` at the totals step (`server.js` lines
873-899): the twelve criterion scores and the project cost. -/
structure ProjectScores where
  safety_freq : ℚ
  safety_rate : ℚ
  cong_demand : ℚ
  cong_los : ℚ
  jobs_pc : ℚ
  jobs_pc_ej : ℚ
  access_nw_norm : ℚ
  access_nw_ej_norm : ℚ
  env_impact_score : ℚ
  job_growth_score : ℚ
  freight_score : ℚ
  activity_score : ℚ
  cost_mil : ℚ

/-- The values of the twelve `scoreColumns` in the order of lines
874-886. -/
def scoreValues (p : ProjectScores) : List ℚ :=
  [p.safety_freq, p.safety_rate, p.cong_demand, p.cong_los, p.jobs_pc, p.jobs_pc_ej,
   p.access_nw_norm, p.access_nw_ej_norm, p.env_impact_score, p.job_growth_score,
   p.freight_score, p.activity_score]

/-- `total_score = scoreColumns.reduce((sum, col) => sum + project[col], 0)`
(lines 892-895). -/
def totalScore (p : ProjectScores) : ℚ := (scoreValues p).foldl (fun s v => s + v) 0

/-- `bcr = cost_mil > 0 ? total_score / cost_mil : 0` (lines 897-898). -/
def bcrOf (p : ProjectScores) : ℚ :=
  if 0 < p.cost_mil then totalScore p / p.cost_mil else 0

/-- A concrete final row: all twelve scores 5, cost 2. -/
def sampleScores : ProjectScores := ⟨5, 5, 5, 5, 5, 5, 5, 5, 5, 5, 5, 5, 2⟩

/-- One step of a stable descending insertion: an element moves ahead of
exactly the elements with strictly smaller key. -/
def insertDescBy {α : Type} (k : α → ℚ) (p : α) : List α → List α
  | [] => [p]
  | q :: qs => if k q < k p then p :: q :: qs else q :: insertDescBy k p qs

/-- `finalData.sort((a, b) => b.bcr - a.bcr)` (`server.js` line 903)
modelled as a stable descending sort by the key `k` (ES2019
`Array.prototype.sort` is stable; the comparator orders by `bcr`
descending and never distinguishes equal keys). -/
def sortDescBy {α : Type} (k : α → ℚ) (l : List α) : List α :=
  l.foldl (fun acc p => insertDescBy k p acc) []

/-- `finalData.forEach((proj, i) => proj.rank = i + 1)` (lines 904-906). -/
def assignRanks {α : Type} (l : List α) : List (α × ℕ) :=
  l.enum.map fun ip => (ip.2, ip.1 + 1)

/-- JS defaulting `feat.properties.project_id || i + 1` at 0-based index
`i` (`server.js` line 753): a missing id, and the falsy id 0, fall back
to the 1-based position; any other id is kept as given. -/
def defaultProjectId (i : ℕ) (pid : Option ℚ) : ℚ :=
  match pid with
  | none => (i : ℚ) + 1
  | some v => if v = 0 then (i : ℚ) + 1 else v

/-- The `project_id` column after the defaulting pass (lines 749-764). -/
def defaultIds (pids : List (Option ℚ)) : List ℚ :=
  pids.enum.map fun p => defaultProjectId p.1 p.2

/-- JS `Map.set` key behaviour: the first insertion of a key fixes its
position; later `set`s replace the value only. -/
def insertKey (ks : List ℚ) (k : ℚ) : List ℚ := if k ∈ ks then ks else ks ++ [k]

/-- The key sequence of `resultsMap` after the init loop
(lines 831-851); its length is the number of rows of the final output. -/
def mapKeysOf (ids : List ℚ) : List ℚ := ids.foldl insertKey []

/-- `analyzeAccessNonWork` (`server.js` lines 570-579): the per-project
score is `Math.random() * 5`.  The hidden PRNG is modelled as the stream
`rand`, drawn once per project in index order. -/
def analyzeAccessNonWork (rand : ℕ → ℚ) (pids : List (Option ℚ)) : List (ℚ × ℚ) :=
  pids.enum.map fun ip => (defaultProjectId ip.1 ip.2, rand ip.1 * 5)

/-- `analyzeAccessNonWorkEJ` (lines 581-590): `Math.random() * 5`. -/
def analyzeAccessNonWorkEJ (rand : ℕ → ℚ) (pids : List (Option ℚ)) : List (ℚ × ℚ) :=
  pids.enum.map fun ip => (defaultProjectId ip.1 ip.2, rand ip.1 * 5)

/-- `analyzeJobGrowth` (lines 611-620): `Math.random() * 10`. -/
def analyzeJobGrowth (rand : ℕ → ℚ) (pids : List (Option ℚ)) : List (ℚ × ℚ) :=
  pids.enum.map fun ip => (defaultProjectId ip.1 ip.2, rand ip.1 * 10)

/-- The ten dataset keys the `/analyze` route requires
(`server.js` lines 971-982). -/
def requiredFiles : List String :=
  ["projects", "crashes", "aadt", "popemp", "t6", "nw", "fhz", "frsk", "wet", "con"]

/-- The feature collections handed to `runAnalysis` (lines 721-738). -/
structure AnalysisFiles where
  projects : List Feature
  crashes : List Feature
  aadt : List Feature
  popemp : List Feature
  t6 : List Feature
  nw : List Feature
  fhz : List Feature
  frsk : List Feature
  wet : List Feature
  con : List Feature
  lehd : List Feature
  actv : List Feature

/-- `requiredFiles.filter((file) => !filePaths[file])` (line 983):
`filePaths` holds a key exactly for each provided upload field. -/
def missingFilesOf (provided : List String) : List String :=
  requiredFiles.filter fun f => !provided.contains f

/-- The `/analyze` gate (lines 983-991) composed with the optional-file
defaulting of `runAnalysis` (lines 732-737): a non-empty missing list is
returned as the structured error before the pipeline is entered;
otherwise every dataset is loaded, with absent optional `lehd`/`actv`
replaced by the empty collection. -/
def analyzeEndpoint (load : String → List Feature) (provided : List String) :
    Except (List String) AnalysisFiles :=
  if 0 < (missingFilesOf provided).length then
    Except.error (missingFilesOf provided)
  else
    Except.ok
      { projects := load "projects", crashes := load "crashes", aadt := load "aadt",
        popemp := load "popemp", t6 := load "t6", nw := load "nw", fhz := load "fhz",
        frsk := load "frsk", wet := load "wet", con := load "con",
        lehd := if provided.contains "lehd" then load "lehd" else [],
        actv := if provided.contains "actv" then load "actv" else [] }

/-- The twelve score columns (`server.js` lines 873-886); the analysis
list of lines 767-828 writes exactly these fields, one per analyzer. -/
def scoreColumns : List String :=
  ["safety_freq", "safety_rate", "cong_demand", "cong_los", "jobs_pc", "jobs_pc_ej",
   "access_nw_norm", "access_nw_ej_norm", "env_impact_score", "job_growth_score",
   "freight_score", "activity_score"]

/-- Lines 837-849: every score field is initialized to the value 1. -/
def initScores : String → ℚ := fun _ => 1

/-- `resultsMap` after the init loop (lines 831-851), keyed by defaulted
project id; only the score fields of each value are modelled. -/
def initMap (pids : List ℚ) : List (ℚ × (String → ℚ)) :=
  pids.map fun pid => (pid, initScores)

/-- One analyzer's merge (lines 860-865): for each result row, the map
entry with that id — when present — is re-set with the analyzer's column
overwritten (`{ ...resultsMap.get(pid), ...res }`). -/
def applyResult (m : List (ℚ × (String → ℚ))) (col : String) (res : List (ℚ × ℚ)) :
    List (ℚ × (String → ℚ)) :=
  res.foldl
    (fun acc pr =>
      acc.map fun entry =>
        if entry.1 = pr.1 then (entry.1, fun cc => if cc = col then pr.2 else entry.2 cc)
        else entry) m

/-- The merge loop (lines 854-869): each analyzer either returns its
result list or throws (`none`), in which case the `catch` only logs and
the loop continues with the next analyzer. -/
def runMerge (outs : String → Option (List (ℚ × ℚ)))
    (m : List (ℚ × (String → ℚ))) : List (ℚ × (String → ℚ)) :=
  scoreColumns.foldl
    (fun acc col =>
      match outs col with
      | none => acc
      | some res => applyResult acc col res) m

/-- `total_score` of a merged score record (lines 892-895). -/
def totalOf (s : String → ℚ) : ℚ := scoreColumns.foldl (fun acc c => acc + s c) 0

/-- An analysis run where `analyzeSafetyFrequency` throws and every
other analyzer returns an empty result list. -/
def c10SampleOuts : String → Option (List (ℚ × ℚ)) :=
  fun col => if col = "safety_freq" then none else some []

theorem gcwKeeps_iff {α β : Type} (buffer : β) (cen : Feature → Option α)
    (win : α → β → Bool) (f : Feature) :
    gcwKeeps buffer cen win f = true ↔
      ∃ g, f.geometry = some g ∧ g.coordinates ≠ [] ∧
        hasValidCoords g.coordinates = true ∧
        ∃ c, cen f = some c ∧ win c buffer = true := by
  cases hg : f.geometry with
  | none => simp [gcwKeeps, hg]
  | some g =>
    cases hc : cen f with
    | none =>
      simp only [gcwKeeps, hg, hc]
      split_ifs <;> simp_all [List.length_eq_zero]
    | some c =>
      simp only [gcwKeeps, hg, hc]
      split_ifs <;> simp_all [List.length_eq_zero]

/-- Partition of a list's length by a Boolean predicate. -/
theorem length_filter_partition {α : Type} (p : α → Bool) (l : List α) :
    (l.filter p).length + (l.filter (fun a => !p a)).length = l.length := by
  induction l with
  | nil => rfl
  | cons a l ih => cases h : p a <;> simp [List.filter_cons, h] <;> omega

/-- C1: `getCentroidsWithin` keeps exactly the candidates passing its own
coordinate validation (a non-empty array of arrays of non-NaN numbers)
whose centroid computation succeeds and whose centroid lies within the
buffer, preserving original order. -/
theorem getCentroidsWithin_mem_iff {α β : Type} (buffer : β)
    (cen : Feature → Option α) (win : α → β → Bool) (features : List Feature) :
    (getCentroidsWithin buffer cen win features).Sublist features ∧
    ∀ f, f ∈ getCentroidsWithin buffer cen win features ↔
      f ∈ features ∧ ∃ g, f.geometry = some g ∧ g.coordinates ≠ [] ∧
        hasValidCoords g.coordinates = true ∧
        ∃ c, cen f = some c ∧ win c buffer = true := by
  refine ⟨List.filter_sublist _, fun f => ?_⟩
  rw [getCentroidsWithin, List.mem_filter, gcwKeeps_iff]

/-- C1 counterexample: a Point feature whose coordinates are all finite
numbers and whose centroid lies within the buffer (the `win` oracle
answers true) is nevertheless excluded by `getCentroidsWithin`, because
the validation only accepts arrays of arrays of numbers. -/
theorem getCentroidsWithin_drops_valid_point :
    featureAllFinite pointFeature = true ∧
    getCentroidsWithin () (fun _ => some ()) (fun _ _ => true) [pointFeature] = [] :=
  ⟨by decide, rfl⟩

/-- C4: `cleanGeoJSON` keeps exactly the features passing its own
validation rule `cleanValid` (coordinates form an array of arrays whose
elements all have JS type number), in original order, and the kept count
plus the failing count equals the input count. -/
theorem cleanGeoJSON_spec (features : List Feature) :
    (cleanGeoJSON features).Sublist features ∧
    (∀ f, f ∈ cleanGeoJSON features ↔ f ∈ features ∧ cleanValid f = true) ∧
    (cleanGeoJSON features).length +
      (features.filter (fun f => !cleanValid f)).length = features.length :=
  ⟨List.filter_sublist _, fun _ => List.mem_filter, length_filter_partition _ _⟩

/-- C4 counterexample: a Point and a Polygon feature whose coordinate
structures are fully numeric and finite are both discarded by
`cleanGeoJSON`, contradicting the claim that every fully-finite
feature is kept. -/
theorem cleanGeoJSON_drops_finite_features :
    featureAllFinite pointFeature = true ∧
    featureAllFinite polygonFeature = true ∧
    cleanGeoJSON [pointFeature, polygonFeature] = [] :=
  ⟨by decide, by decide, rfl⟩

theorem le_foldl_max (l : List ℚ) (a : ℚ) : a ≤ l.foldl max a := by
  induction l generalizing a with
  | nil => exact le_refl a
  | cons x xs ih => exact le_trans (le_max_left a x) (ih (max a x))

theorem mem_le_foldl_max {l : List ℚ} {x : ℚ} (hx : x ∈ l) : ∀ a, x ≤ l.foldl max a := by
  induction hx with
  | head ys => exact fun a => le_trans (le_max_right a x) (le_foldl_max ys (max a x))
  | tail y hmem ih => exact fun a => ih (max a y)

theorem foldl_max_le (l : List ℚ) (a r : ℚ) (ha : a ≤ r) (hall : ∀ x ∈ l, x ≤ r) :
    l.foldl max a ≤ r := by
  induction l generalizing a with
  | nil => exact ha
  | cons y ys ih =>
    exact ih (max a y) (max_le ha (hall y (List.mem_cons_self y ys)))
      (fun x hx => hall x (List.mem_cons_of_mem y hx))

theorem foldl_max_eq (l : List ℚ) (a r : ℚ) (hr : r ∈ l) (hall : ∀ x ∈ l, x ≤ r)
    (ha : a ≤ r) : l.foldl max a = r :=
  le_antisymm (foldl_max_le l a r ha hall) (mem_le_foldl_max hr a)

/-- C2 (amended): when all raw metrics are nonnegative and the maximum raw
value is at least the ε guard 0.0001, the project attaining the maximum
normalizes to exactly the cap and every normalized score lies in [0, cap]. -/
theorem normalizeScore_spec (cap : ℚ) (raws : List ℚ) (r : ℚ) (hcap : 0 < cap)
    (hnn : ∀ x ∈ raws, 0 ≤ x) (hr : r ∈ raws) (hall : ∀ x ∈ raws, x ≤ r)
    (heps : epsGuard ≤ r) :
    normalizeScore cap (maxRawOf raws) r = cap ∧
    ∀ x ∈ raws, 0 ≤ normalizeScore cap (maxRawOf raws) x ∧
      normalizeScore cap (maxRawOf raws) x ≤ cap := by
  have hm : maxRawOf raws = r := foldl_max_eq raws epsGuard r hr hall heps
  have hrpos : 0 < r := lt_of_lt_of_le (by norm_num [epsGuard]) heps
  rw [hm]
  constructor
  · rw [normalizeScore, if_pos hrpos, div_self (ne_of_gt hrpos), one_mul]
  · intro x hx
    rw [normalizeScore, if_pos hrpos]
    constructor
    · exact mul_nonneg (div_nonneg (hnn x hx) (le_of_lt hrpos)) (le_of_lt hcap)
    · calc x / r * cap ≤ 1 * cap :=
            mul_le_mul_of_nonneg_right ((div_le_one hrpos).mpr (hall x hx)) (le_of_lt hcap)
        _ = cap := one_mul cap

/-- C2 witness: two projects with raws 2 and 1 (cap 5): the maximum
normalizes to exactly 5. -/
theorem normalizeScore_spec_witness :
    normalizeScore 5 (maxRawOf [2, 1]) 2 = 5 :=
  (normalizeScore_spec 5 [2, 1] 2 (by norm_num)
    (by intro x hx; fin_cases hx <;> norm_num)
    (by norm_num)
    (by intro x hx; fin_cases hx <;> norm_num)
    (by norm_num [epsGuard])).1

/-- C2 counterexample: with a single project of negative raw metric −50
(possible for the equity percent-change), the guarded maximum is the ε
value 0.0001 and the normalized score is −2500000: far outside [0, cap]
and not equal to the cap although this project attains the maximum raw
value.  Also, a single raw value below ε (0.00005) normalizes to half
the cap rather than the cap. -/
theorem normalizeScore_negative_counterexample :
    maxRawOf [-50] = epsGuard ∧
    normalizeScore 5 (maxRawOf [-50]) (-50) = -2500000 ∧
    normalizeScore 5 (maxRawOf [-50]) (-50) < 0 ∧
    normalizeScore 5 (maxRawOf [1 / 20000]) (1 / 20000) = 5 / 2 := by
  have hpos : (0 : ℚ) < epsGuard := by norm_num [epsGuard]
  have h1 : maxRawOf [-50] = epsGuard := by
    rw [maxRawOf, List.foldl_cons, List.foldl_nil]
    exact max_eq_left (by norm_num [epsGuard])
  have h2 : normalizeScore 5 (maxRawOf [-50]) (-50) = -2500000 := by
    rw [h1, normalizeScore, if_pos hpos]
    norm_num [epsGuard]
  have h3 : maxRawOf [1 / 20000] = epsGuard := by
    rw [maxRawOf, List.foldl_cons, List.foldl_nil]
    exact max_eq_left (by norm_num [epsGuard])
  refine ⟨h1, h2, by rw [h2]; norm_num, ?_⟩
  rw [h3, normalizeScore, if_pos hpos]
  norm_num [epsGuard]

/-- C5: the Safety Rate exposure is (AADT×length×365)/1e8 for type
"highway", (AADT×365)/1e6 for "intersection" and 1 otherwise, and the
raw metric is benefit ÷ exposure whenever the exposure is positive; in
the scenario AADT=1000, benefit=5000, type "intersection" the exposure
is 365/1000 = 0.365 and the raw rate is 1000000/73 ≈ 13698.63. -/
theorem safetyRate_exposure_spec :
    (∀ aadt len : ℚ, vmtOf "highway" aadt len = aadt * len * 365 / 100000000) ∧
    (∀ aadt len : ℚ, vmtOf "intersection" aadt len = aadt * 365 / 1000000) ∧
    (∀ (ptype : String) (aadt len : ℚ), lowerStr ptype ≠ "highway" →
      lowerStr ptype ≠ "intersection" → vmtOf ptype aadt len = 1) ∧
    (∀ benefit vmt : ℚ, 0 < vmt → epdoRateOf benefit vmt = benefit / vmt) ∧
    (∀ len : ℚ, vmtOf "intersection" 1000 len = 365 / 1000) ∧
    epdoRateOf 5000 (365 / 1000) = 1000000 / 73 := by
  have hhw : lowerStr "highway" = "highway" := by decide
  have hints : lowerStr "intersection" = "intersection" := by decide
  have hne : ("intersection" : String) ≠ "highway" := by decide
  refine ⟨?_, ?_, ?_, ?_, ?_, ?_⟩
  · intro aadt len; rw [vmtOf, if_pos hhw]
  · intro aadt len; rw [vmtOf, if_neg (by rw [hints]; exact hne), if_pos hints]
  · intro p aadt len h1 h2; rw [vmtOf, if_neg h1, if_neg h2]
  · intro b v hv; rw [epdoRateOf, if_pos hv]
  · intro len
    rw [vmtOf, if_neg (by rw [hints]; exact hne), if_pos hints]
    norm_num
  · rw [epdoRateOf, if_pos (by norm_num)]
    norm_num

/-- C5 witness: a project of type "unknown" has exposure 1, and a
positive exposure divides the benefit. -/
theorem safetyRate_exposure_witness :
    vmtOf "unknown" 7 3 = 1 ∧ epdoRateOf 10 2 = 5 := by
  refine ⟨safetyRate_exposure_spec.2.2.1 "unknown" 7 3 (by decide) (by decide), ?_⟩
  rw [safetyRate_exposure_spec.2.2.2.1 10 2 (by norm_num)]
  norm_num

/-- C6: `total_score` is the exact sum of the twelve criterion scores
and `bcr` is `total_score / cost_mil` for positive cost and 0 otherwise;
in particular cost 2 with total 60 gives bcr 30. -/
theorem totalScore_bcr_spec (p : ProjectScores) :
    totalScore p = p.safety_freq + p.safety_rate + p.cong_demand + p.cong_los +
      p.jobs_pc + p.jobs_pc_ej + p.access_nw_norm + p.access_nw_ej_norm +
      p.env_impact_score + p.job_growth_score + p.freight_score + p.activity_score ∧
    (0 < p.cost_mil → bcrOf p = totalScore p / p.cost_mil) ∧
    (¬ 0 < p.cost_mil → bcrOf p = 0) ∧
    (p.cost_mil = 2 → totalScore p = 60 → bcrOf p = 30) := by
  have htot : totalScore p = p.safety_freq + p.safety_rate + p.cong_demand +
      p.cong_los + p.jobs_pc + p.jobs_pc_ej + p.access_nw_norm + p.access_nw_ej_norm +
      p.env_impact_score + p.job_growth_score + p.freight_score + p.activity_score := by
    simp only [totalScore, scoreValues, List.foldl]
    ring
  refine ⟨htot, fun h => by rw [bcrOf, if_pos h], fun h => by rw [bcrOf, if_neg h], ?_⟩
  intro hc ht
  rw [bcrOf, if_pos (by rw [hc]; norm_num), ht, hc]
  norm_num

/-- C6 witness: the sample row totals 60 and has bcr 30. -/
theorem totalScore_bcr_witness : bcrOf sampleScores = 30 :=
  (totalScore_bcr_spec sampleScores).2.2.2 rfl
    (by norm_num [totalScore, scoreValues, sampleScores])

theorem insertDescBy_perm {α : Type} (k : α → ℚ) (p : α) (l : List α) :
    (insertDescBy k p l).Perm (p :: l) := by
  induction l with
  | nil => exact List.Perm.refl _
  | cons q qs ih =>
    rw [insertDescBy]
    split
    · exact List.Perm.refl _
    · exact (ih.cons q).trans (List.Perm.swap p q qs)

theorem sortDescBy_perm_aux {α : Type} (k : α → ℚ) (l : List α) :
    ∀ acc : List α, (l.foldl (fun acc p => insertDescBy k p acc) acc).Perm (acc ++ l) := by
  induction l with
  | nil => intro acc; simp
  | cons x xs ih =>
    intro acc
    rw [List.foldl_cons]
    refine (ih (insertDescBy k x acc)).trans ?_
    refine (((insertDescBy_perm k x acc).append_right xs).trans ?_)
    exact List.perm_middle.symm

theorem sortDescBy_perm {α : Type} (k : α → ℚ) (l : List α) :
    (sortDescBy k l).Perm l := by
  simpa using sortDescBy_perm_aux k l []

theorem insertDescBy_sorted {α : Type} (k : α → ℚ) (p : α) {l : List α}
    (h : l.Pairwise (fun a b => k b ≤ k a)) :
    (insertDescBy k p l).Pairwise (fun a b => k b ≤ k a) := by
  induction l with
  | nil => simp [insertDescBy]
  | cons q qs ih =>
    rcases List.pairwise_cons.mp h with ⟨hq, hqs⟩
    rw [insertDescBy]
    split
    · rename_i hlt
      refine List.pairwise_cons.mpr ⟨?_, h⟩
      intro x hx
      rcases List.mem_cons.mp hx with rfl | hmem
      · exact le_of_lt hlt
      · exact le_trans (hq x hmem) (le_of_lt hlt)
    · rename_i hlt
      refine List.pairwise_cons.mpr ⟨?_, ih hqs⟩
      intro x hx
      rcases List.mem_cons.mp ((insertDescBy_perm k p qs).mem_iff.mp hx) with rfl | hmem
      · exact le_of_not_lt hlt
      · exact hq x hmem

theorem sortDescBy_sorted_aux {α : Type} (k : α → ℚ) (l : List α) :
    ∀ acc : List α, acc.Pairwise (fun a b => k b ≤ k a) →
      (l.foldl (fun acc p => insertDescBy k p acc) acc).Pairwise (fun a b => k b ≤ k a) := by
  induction l with
  | nil => intro acc hacc; exact hacc
  | cons x xs ih =>
    intro acc hacc
    rw [List.foldl_cons]
    exact ih (insertDescBy k x acc) (insertDescBy_sorted k x hacc)

theorem sortDescBy_sorted {α : Type} (k : α → ℚ) (l : List α) :
    (sortDescBy k l).Pairwise (fun a b => k b ≤ k a) :=
  sortDescBy_sorted_aux k l [] (List.Pairwise.nil)

theorem filter_insertDescBy {α : Type} (k : α → ℚ) (v : ℚ) (p : α) {l : List α}
    (h : l.Pairwise (fun a b => k b ≤ k a)) :
    (insertDescBy k p l).filter (fun x => decide (k x = v)) =
      if k p = v then l.filter (fun x => decide (k x = v)) ++ [p]
      else l.filter (fun x => decide (k x = v)) := by
  induction l with
  | nil =>
    by_cases hpv : k p = v <;> simp [insertDescBy, List.filter, hpv]
  | cons q qs ih =>
    rcases List.pairwise_cons.mp h with ⟨hq, hqs⟩
    rw [insertDescBy]
    split
    · rename_i hlt
      by_cases hpv : k p = v
      · have hnone : (q :: qs).filter (fun x => decide (k x = v)) = [] := by
          refine List.filter_eq_nil_iff.mpr ?_
          intro x hx
          rcases List.mem_cons.mp hx with rfl | hmem
          · simpa using ne_of_lt (hpv ▸ hlt)
          · simpa using ne_of_lt (lt_of_le_of_lt (hq x hmem) (hpv ▸ hlt))
        rw [if_pos hpv, hnone]
        rw [List.filter_cons_of_pos (by simpa using hpv), hnone]
        rfl
      · rw [if_neg hpv, List.filter_cons_of_neg (by simpa using hpv)]
    · rename_i hlt
      by_cases hqv : k q = v <;> by_cases hpv : k p = v <;>
        simp [List.filter_cons, hqv, hpv, ih hqs]

theorem filter_sortDescBy_aux {α : Type} (k : α → ℚ) (v : ℚ) (l : List α) :
    ∀ acc : List α, acc.Pairwise (fun a b => k b ≤ k a) →
      (l.foldl (fun acc p => insertDescBy k p acc) acc).filter (fun x => decide (k x = v)) =
        acc.filter (fun x => decide (k x = v)) ++ l.filter (fun x => decide (k x = v)) := by
  induction l with
  | nil => intro acc _; simp
  | cons x xs ih =>
    intro acc hacc
    rw [List.foldl_cons, ih (insertDescBy k x acc) (insertDescBy_sorted k x hacc),
      filter_insertDescBy k v x hacc]
    by_cases hxv : k x = v <;>
      simp [List.filter_cons, hxv]

theorem filter_sortDescBy {α : Type} (k : α → ℚ) (v : ℚ) (l : List α) :
    (sortDescBy k l).filter (fun x => decide (k x = v)) =
      l.filter (fun x => decide (k x = v)) := by
  simpa using filter_sortDescBy_aux k v l [] List.Pairwise.nil

theorem enumFrom_snd_ranks {α : Type} (l : List α) :
    ∀ n : ℕ, ((List.enumFrom n l).map fun ip => ip.1 + 1) = List.range' (n + 1) l.length := by
  induction l with
  | nil => intro n; rfl
  | cons x xs ih =>
    intro n
    show (n + 1) :: ((List.enumFrom (n + 1) xs).map fun ip => ip.1 + 1) =
      List.range' (n + 1) (xs.length + 1)
    rw [ih (n + 1), List.range'_succ (n + 1) xs.length 1]

theorem assignRanks_map_snd {α : Type} (l : List α) :
    (assignRanks l).map Prod.snd = List.range' 1 l.length := by
  rw [assignRanks, List.map_map]
  exact enumFrom_snd_ranks l 0

/-- C7: after the descending stable sort of lines 903-906, the assigned
ranks are exactly 1..N, the output is a permutation of the input (same
multiset of rows), consecutive rows have non-increasing `bcr` (so
`bcr[i] ≥ bcr[j]` for every `i < j`), and the rows having any fixed
`bcr` value keep their original input order (stability). -/
theorem sortRank_spec (l : List ProjectScores) :
    ((assignRanks (sortDescBy bcrOf l)).map Prod.snd = List.range' 1 l.length) ∧
    (sortDescBy bcrOf l).Perm l ∧
    (sortDescBy bcrOf l).Pairwise (fun a b => bcrOf b ≤ bcrOf a) ∧
    (∀ v : ℚ, (sortDescBy bcrOf l).filter (fun x => decide (bcrOf x = v)) =
      l.filter (fun x => decide (bcrOf x = v))) := by
  refine ⟨?_, sortDescBy_perm bcrOf l, sortDescBy_sorted bcrOf l,
    fun v => filter_sortDescBy bcrOf v l⟩
  rw [assignRanks_map_snd, (sortDescBy_perm bcrOf l).length_eq]

theorem foldl_insertKey_nodup (l : List ℚ) : ∀ acc : List ℚ, l.Nodup →
    (∀ k ∈ l, k ∉ acc) → l.foldl insertKey acc = acc ++ l := by
  induction l with
  | nil => intro acc _ _; simp
  | cons a l ih =>
    intro acc hnd hdisj
    have ha : a ∉ acc := hdisj a (List.mem_cons_self a l)
    rw [List.foldl_cons, insertKey, if_neg ha,
      ih (acc ++ [a]) (List.Nodup.of_cons hnd) ?_]
    · simp
    · intro k hk
      rw [List.mem_append, List.mem_singleton]
      rintro (h | rfl)
      · exact hdisj k (List.mem_cons_of_mem a hk) h
      · exact (List.nodup_cons.mp hnd).1 hk

/-- C3 (amended): when the defaulted `project_id` values happen to be
pairwise distinct, the `resultsMap` keys are exactly those ids in input
order, so every input project appears exactly once and
`summary.total_projects` equals the number of input features. -/
theorem resultsMap_complete (pids : List (Option ℚ)) (h : (defaultIds pids).Nodup) :
    mapKeysOf (defaultIds pids) = defaultIds pids ∧
    (mapKeysOf (defaultIds pids)).length = pids.length := by
  have hkeys : mapKeysOf (defaultIds pids) = defaultIds pids := by
    rw [mapKeysOf, foldl_insertKey_nodup (defaultIds pids) [] h (by simp), List.nil_append]
  refine ⟨hkeys, ?_⟩
  rw [hkeys, defaultIds, List.length_map, List.enum_length]

/-- C3 witness: two projects with ids absent and 5: defaulted ids [1, 5]
are distinct and both rows survive. -/
theorem resultsMap_complete_witness :
    mapKeysOf (defaultIds [none, some 5]) = defaultIds [none, some 5] ∧
    (mapKeysOf (defaultIds [none, some 5])).length = 2 :=
  resultsMap_complete [none, some 5]
    (by norm_num [defaultIds, defaultProjectId, List.enum, List.enumFrom])

/-- C3 counterexample: two input projects both carrying `project_id` 1
default to the duplicate id column [1, 1]; the `resultsMap` then holds a
single entry, so one project is silently dropped and
`summary.total_projects` is 1, not 2. -/
theorem duplicate_ids_collapse :
    defaultIds [some 1, some 1] = [1, 1] ∧
    ¬ (defaultIds [some 1, some 1]).Nodup ∧
    (mapKeysOf (defaultIds [some 1, some 1])).length = 1 := by
  have hids : defaultIds [some 1, some 1] = [1, 1] := by
    norm_num [defaultIds, defaultProjectId, List.enum, List.enumFrom]
  refine ⟨hids, ?_, ?_⟩
  · rw [hids]
    simp
  · rw [hids, mapKeysOf]
    norm_num [insertKey]

/-- C8 (amended): the three placeholder analyzers are deterministic only
relative to the PRNG stream — two invocations that read equal random
draws on equal project inputs return equal outputs. -/
theorem analyzers_deterministic_given_stream (r1 r2 : ℕ → ℚ)
    (pids : List (Option ℚ)) (h : ∀ i, r1 i = r2 i) :
    analyzeAccessNonWork r1 pids = analyzeAccessNonWork r2 pids ∧
    analyzeAccessNonWorkEJ r1 pids = analyzeAccessNonWorkEJ r2 pids ∧
    analyzeJobGrowth r1 pids = analyzeJobGrowth r2 pids := by
  have hr : r1 = r2 := funext h
  subst hr
  exact ⟨rfl, rfl, rfl⟩

/-- C8 witness: with literally equal streams the outputs agree. -/
theorem analyzers_deterministic_witness :
    analyzeAccessNonWork (fun _ => 1 / 2) [some 3] =
      analyzeAccessNonWork (fun _ => 1 / 2) [some 3] :=
  (analyzers_deterministic_given_stream (fun _ => 1 / 2) (fun _ => 1 / 2) [some 3]
    (fun _ => rfl)).1

/-- C8 counterexample: two invocations of `analyzeAccessNonWork` (resp.
`analyzeJobGrowth`) on the same single-project input but with the global
PRNG in different states return different outputs, so these analyzers
are not deterministic functions of the project and reference-layer
inputs alone. -/
theorem analyzers_random_counterexample :
    analyzeAccessNonWork (fun _ => 0) [some 3] = [(3, 0)] ∧
    analyzeAccessNonWork (fun _ => 1) [some 3] = [(3, 5)] ∧
    analyzeAccessNonWork (fun _ => 0) [some 3] ≠ analyzeAccessNonWork (fun _ => 1) [some 3] ∧
    analyzeJobGrowth (fun _ => 0) [some 3] ≠ analyzeJobGrowth (fun _ => 1) [some 3] := by
  have h0 : analyzeAccessNonWork (fun _ => 0) [some 3] = [(3, 0)] := by
    norm_num [analyzeAccessNonWork, defaultProjectId, List.enum, List.enumFrom]
  have h1 : analyzeAccessNonWork (fun _ => 1) [some 3] = [(3, 5)] := by
    norm_num [analyzeAccessNonWork, defaultProjectId, List.enum, List.enumFrom]
  have h2 : analyzeJobGrowth (fun _ => 0) [some 3] = [(3, 0)] := by
    norm_num [analyzeJobGrowth, defaultProjectId, List.enum, List.enumFrom]
  have h3 : analyzeJobGrowth (fun _ => 1) [some 3] = [(3, 10)] := by
    norm_num [analyzeJobGrowth, defaultProjectId, List.enum, List.enumFrom]
  refine ⟨h0, h1, ?_, ?_⟩
  · rw [h0, h1]
    simp only [ne_eq, List.cons.injEq, Prod.mk.injEq]
    norm_num
  · rw [h2, h3]
    simp only [ne_eq, List.cons.injEq, Prod.mk.injEq]
    norm_num

/-- C9: the pipeline does not run when any required dataset is absent:
the caller gets a structured error listing exactly the absent required
datasets; when none are missing the pipeline runs, with absent optional
datasets (`lehd`, `actv`) treated as empty collections. -/
theorem analyzeGate_spec (load : String → List Feature) (provided : List String) :
    (∀ f, f ∈ missingFilesOf provided ↔ f ∈ requiredFiles ∧ f ∉ provided) ∧
    (missingFilesOf provided ≠ [] →
      analyzeEndpoint load provided = Except.error (missingFilesOf provided)) ∧
    (missingFilesOf provided = [] → ∃ files : AnalysisFiles,
      analyzeEndpoint load provided = Except.ok files ∧
      files.projects = load "projects" ∧
      (provided.contains "lehd" = false → files.lehd = []) ∧
      (provided.contains "actv" = false → files.actv = [])) := by
  refine ⟨?_, ?_, ?_⟩
  · intro f
    simp [missingFilesOf, List.mem_filter]
  · intro h
    rw [analyzeEndpoint, if_pos (List.length_pos.mpr h)]
  · intro h
    rw [analyzeEndpoint, if_neg (by simp [h])]
    refine ⟨_, rfl, rfl, fun hl => ?_, fun ha => ?_⟩
    · have hmem : "lehd" ∉ provided := by simpa using hl
      simp [hmem]
    · have hmem : "actv" ∉ provided := by simpa using ha
      simp [hmem]

/-- C9 witness: a request providing no datasets is rejected with the
full required list as the structured error. -/
theorem analyzeGate_witness :
    analyzeEndpoint (fun _ => []) [] = Except.error requiredFiles := by
  have hm : missingFilesOf [] = requiredFiles := rfl
  have h := (analyzeGate_spec (fun _ => ([] : List Feature)) []).2.1
  rw [hm] at h
  exact h (by decide)

theorem foldl_add_map (s : String → ℚ) (l : List String) :
    ∀ a : ℚ, l.foldl (fun acc c => acc + s c) a = a + (l.map s).sum := by
  induction l with
  | nil => intro a; simp
  | cons x xs ih =>
    intro a
    rw [List.foldl_cons, ih (a + s x)]
    simp [add_assoc]

theorem applyResult_preserves {c col : String} (hcol : c ≠ col) (res : List (ℚ × ℚ)) :
    ∀ m : List (ℚ × (String → ℚ)), (∀ e ∈ m, e.2 c = 1) →
      ∀ e ∈ applyResult m col res, e.2 c = 1 := by
  induction res with
  | nil => intro m hm; simpa [applyResult] using hm
  | cons pr rs ih =>
    intro m hm
    have hstep : ∀ e ∈ (m.map fun entry =>
        if entry.1 = pr.1 then (entry.1, fun cc => if cc = col then pr.2 else entry.2 cc)
        else entry), e.2 c = 1 := by
      intro e he
      rcases List.mem_map.mp he with ⟨e0, he0, rfl⟩
      by_cases hid : e0.1 = pr.1
      · rw [if_pos hid]
        show (if c = col then pr.2 else e0.2 c) = 1
        rw [if_neg hcol]
        exact hm e0 he0
      · rw [if_neg hid]
        exact hm e0 he0
    have heq : applyResult m col (pr :: rs) =
        applyResult (m.map fun entry =>
          if entry.1 = pr.1 then (entry.1, fun cc => if cc = col then pr.2 else entry.2 cc)
          else entry) col rs := by
      rw [applyResult, applyResult, List.foldl_cons]
    rw [heq]
    exact ih _ hstep

theorem mergeFold_preserves (outs : String → Option (List (ℚ × ℚ))) (c : String)
    (hnone : outs c = none) (cols : List String) :
    ∀ m : List (ℚ × (String → ℚ)), (∀ e ∈ m, e.2 c = 1) →
      ∀ e ∈ cols.foldl
          (fun acc col =>
            match outs col with
            | none => acc
            | some res => applyResult acc col res) m, e.2 c = 1 := by
  induction cols with
  | nil => intro m hm; simpa using hm
  | cons col cols ih =>
    intro m hm
    rw [List.foldl_cons]
    apply ih
    cases houts : outs col with
    | none =>
      simp only [houts]
      exact hm
    | some res =>
      have hcol : c ≠ col := by
        intro hcc
        rw [hcc] at hnone
        rw [hnone] at houts
        exact Option.noConfusion houts
      simp only [houts]
      exact applyResult_preserves hcol res m hm

/-- C10: the twelve score fields start at 1 (not 0); when an entire
analyzer invocation throws (its output is `none`), every project keeps
the initial value 1 in that analyzer's column after the merge loop, and
that column contributes exactly 1 to each project's `total_score`. -/
theorem analyzerFailure_keeps_init_one (outs : String → Option (List (ℚ × ℚ)))
    (pids : List ℚ) (c : String) (hc : c ∈ scoreColumns) (hnone : outs c = none) :
    ∀ pid s, (pid, s) ∈ runMerge outs (initMap pids) →
      s c = 1 ∧ totalOf s = 1 + ((scoreColumns.erase c).map s).sum := by
  intro pid s hmem
  have hinit : ∀ e ∈ initMap pids, e.2 c = 1 := by
    intro e he
    rcases List.mem_map.mp he with ⟨pid0, _, rfl⟩
    rfl
  have hone : s c = 1 :=
    mergeFold_preserves outs c hnone scoreColumns (initMap pids) hinit (pid, s) hmem
  refine ⟨hone, ?_⟩
  have hperm : scoreColumns.Perm (c :: scoreColumns.erase c) := List.perm_cons_erase hc
  have hsum : (scoreColumns.map s).sum = s c + ((scoreColumns.erase c).map s).sum := by
    rw [(hperm.map s).sum_eq]
    simp
  rw [totalOf, foldl_add_map s scoreColumns 0, zero_add, hsum, hone]

/-- C10 witness: in the sample run the one project's `safety_freq` stays
1 and contributes 1 to its total score. -/
theorem analyzerFailure_keeps_init_one_witness :
    initScores "safety_freq" = 1 ∧
    totalOf initScores = 1 + ((scoreColumns.erase "safety_freq").map initScores).sum :=
  analyzerFailure_keeps_init_one c10SampleOuts [1] "safety_freq"
    (by decide) rfl 1 initScores
    (by
      have hrun : runMerge c10SampleOuts (initMap [1]) = [(1, initScores)] := rfl
      rw [hrun]
      exact List.mem_singleton.mpr rfl)
